import Mathlib

/-!
Verification of the dpkg control-file parser (`src/parser.rs`, `src/ast.rs`).

Strings are modelled as lists of characters (`Str`).  Each Rust function is
translated to an executable Lean function over `Str`:

* `rustLines` models `str::lines` (split at `'\n'`, one `'\r'` immediately
  before a `'\n'` is stripped from that line, a final piece is kept as-is,
  and a trailing newline produces no final empty line);
* `strTrim` models `str::trim` (Unicode white space on both ends);
* `replaceAll` models `str::replace` with an empty replacement (every
  non-overlapping occurrence, scanned left to right);
* `splitOnStr` models `str::split` with a string pattern;
* `parse_field`, `parse_package`, `parse_libraries`, `parse` are translated
  clause by clause from `parser.rs`.  A Rust panic (an `unwrap` of `None`,
  e.g. `line.chars().next().unwrap()` on an empty line) is modelled as
  `Option.none`; a returned `Result` is modelled by `PResult`.
-/

set_option maxRecDepth 8000

abbrev Str := List Char

def strOf (s : String) : Str := s.data

/-- Unicode `White_Space`, the character class used by Rust's `str::trim`. -/
def isRustWS (c : Char) : Bool :=
  let n := c.toNat
  (0x09 ≤ n && n ≤ 0x0D) || n == 0x20 || n == 0x85 || n == 0xA0 || n == 0x1680 ||
  (0x2000 ≤ n && n ≤ 0x200A) || n == 0x2028 || n == 0x2029 || n == 0x202F ||
  n == 0x205F || n == 0x3000

/-- `str::trim`: remove leading and trailing white space. -/
def strTrim (s : Str) : Str :=
  ((s.dropWhile isRustWS).reverse.dropWhile isRustWS).reverse

/-- `str::starts_with` for a string pattern. -/
def strStartsWith : Str → Str → Bool
  | _, [] => true
  | [], _ :: _ => false
  | c :: s, p :: ps => c == p && strStartsWith s ps

/-- Remove one carriage return at the very end of a line (part of `str::lines`). -/
def stripCR : Str → Str
  | [] => []
  | ['\r'] => []
  | c :: rest => c :: stripCR rest

/-- Worker for `rustLines`; `acc` holds the current line reversed. -/
def rustLinesGo : Str → Str → List Str
  | [], acc => if acc = [] then [] else [acc.reverse]
  | c :: rest, acc =>
    if c = '\n' then stripCR acc.reverse :: rustLinesGo rest []
    else rustLinesGo rest (c :: acc)

/-- `str::lines`. -/
def rustLines (s : Str) : List Str := rustLinesGo s []

/-- `str::replace pat rep`, fuelled by the input length (each step consumes at
least one character when `pat` is non-empty, so the fuel never runs out). -/
def replaceAllFuel (pat rep : Str) : Nat → Str → Str
  | _, [] => []
  | 0, s => s
  | fuel + 1, c :: rest =>
    if (!pat.isEmpty) && strStartsWith (c :: rest) pat then
      rep ++ replaceAllFuel pat rep fuel (List.drop (pat.length - 1) rest)
    else
      c :: replaceAllFuel pat rep fuel rest

/-- `str::replace`: replace every non-overlapping occurrence of `pat` by `rep`. -/
def replaceAll (pat rep s : Str) : Str := replaceAllFuel pat rep s.length s

/-- Worker for `splitOnStr`, fuelled by the input length. -/
def splitOnStrFuel (sep : Str) : Nat → Str → Str → List Str
  | _, [], acc => [acc.reverse]
  | 0, s, acc => [acc.reverse ++ s]
  | fuel + 1, c :: rest, acc =>
    if (!sep.isEmpty) && strStartsWith (c :: rest) sep then
      acc.reverse :: splitOnStrFuel sep fuel (List.drop (sep.length - 1) rest) []
    else
      splitOnStrFuel sep fuel rest (c :: acc)

/-- `str::split` with a string pattern (always at least one piece). -/
def splitOnStr (sep s : Str) : List Str := splitOnStrFuel sep s.length s []

/-- The `FieldName` enumeration of `parser.rs` (only the three live variants). -/
inductive FieldName where
  | Package
  | Depends
  | Description
deriving DecidableEq

/-- `FieldName::to_string`. -/
def fieldNameStr : FieldName → Str
  | FieldName.Package => strOf "Package"
  | FieldName.Depends => strOf "Depends"
  | FieldName.Description => strOf "Description"

/-- The match pattern `format!("{}:", field_name)` of `parse_field`. -/
def fieldPat (f : FieldName) : Str := fieldNameStr f ++ [':']

/-- The replace pattern `format!("{}: ", field_name)` of `parse_field`. -/
def fieldPatSp (f : FieldName) : Str := fieldNameStr f ++ [':', ' ']

/-- `ParseError` of `parser.rs`. -/
inductive ParseError where
  | PackageNameNotFound (source : Str)
deriving DecidableEq

/-- Rust's `Result<T, ParseError>` (the `ParseResult` alias of `parser.rs`). -/
inductive PResult (α : Type) where
  | ok (value : α) : PResult α
  | error (err : ParseError) : PResult α
deriving DecidableEq

/-- `Library` of `ast.rs` (the `kind` tag carries no information and is dropped). -/
structure Library where
  name : Str
  alternates : List Str
deriving DecidableEq

/-- `Package` of `ast.rs`. -/
structure Package where
  name : Str
  description : Str
  depends : List Library
deriving DecidableEq

/-- `Document` of `ast.rs`. -/
structure Document where
  packages : List Package
deriving DecidableEq

/-- The scanning loop of `parse_field` (lines 161-175 of `parser.rs`), one call
per line of the stanza, with `buf` the accumulated content (each written line is
followed by `'\n'`, as `writeln!` produces).  An empty line makes
`line.chars().next().unwrap()` panic, modelled as `none`; `break` returns the
buffer collected so far. -/
def parseFieldLoop (pat patSp : Str) : List Str → Str → Option Str
  | [], buf => some buf
  | [] :: _, _ => none
  | (c :: cs) :: rest, buf =>
    if strStartsWith (c :: cs) pat then
      parseFieldLoop pat patSp rest (buf ++ replaceAll patSp [] (c :: cs) ++ ['\n'])
    else if buf = [] then
      parseFieldLoop pat patSp rest buf
    else if c = ' ' then
      parseFieldLoop pat patSp rest (buf ++ strTrim (c :: cs) ++ ['\n'])
    else
      some buf

/-- `parse_field` of `parser.rs`: run the loop over the stanza's lines and trim
the assembled buffer.  `none` models a panic on an empty line. -/
def parse_field (f : FieldName) (source : Str) : Option Str :=
  Option.map strTrim (parseFieldLoop (fieldPat f) (fieldPatSp f) (rustLines source) [])

/-- The separator `", "` of `parse_libraries`. -/
def strCommaSep : Str := [',', ' ']

/-- The separator `" | "` of `parse_libraries`. -/
def strPipeSep : Str := [' ', '|', ' ']

/-- One clause of `parse_libraries`: split on `" | "`, the head (`vec[0]`,
whose absence would panic) is the name, the tail the alternates. -/
def mkLibrary (clause : Str) : Option Library :=
  match splitOnStr strPipeSep clause with
  | [] => none
  | name :: alts => some { name := name, alternates := alts }

/-- `.map(..).collect()` over the clauses: the first panicking clause aborts. -/
def collectLibraries : List Str → Option (List Library)
  | [] => some []
  | c :: rest =>
    match mkLibrary c, collectLibraries rest with
    | some l, some ls => some (l :: ls)
    | _, _ => none

/-- `parse_libraries` of `parser.rs`. -/
def parse_libraries (source : Str) : Option (List Library) :=
  if source = [] then some []
  else collectLibraries (splitOnStr strCommaSep source)

/-- `parse_package` of `parser.rs`: extract the three fields, fail with
`PackageNameNotFound` when the extracted `Package` value is empty. -/
def parse_package (source : Str) : Option (PResult Package) :=
  match parse_field FieldName.Package source with
  | none => none
  | some name =>
    if name = [] then some (PResult.error (ParseError.PackageNameNotFound source))
    else
      match parse_field FieldName.Description source with
      | none => none
      | some description =>
        match parse_field FieldName.Depends source with
        | none => none
        | some dep =>
          match parse_libraries dep with
          | none => none
          | some depends =>
            some (PResult.ok { name := name, description := description, depends := depends })

/-- The line loop of `parse` (lines 125-138 of `parser.rs`): a non-empty line
is appended to the accumulator (followed by `'\n'`, as `writeln!` produces); an
empty line flushes the accumulator through `parse_package`, appending on
success and aborting on error. -/
def parseLoop : List Str → Str → List Package → Option (PResult (List Package))
  | [], _, pkgs => some (PResult.ok pkgs)
  | [] :: rest, buf, pkgs =>
    match parse_package buf with
    | none => none
    | some (PResult.error e) => some (PResult.error e)
    | some (PResult.ok p) => parseLoop rest [] (pkgs ++ [p])
  | (c :: cs) :: rest, buf, pkgs => parseLoop rest (buf ++ (c :: cs) ++ ['\n']) pkgs

/-- `parse` of `parser.rs`: two `writeln!` calls append `"\n\n"` to the source,
then the line loop runs over its lines. -/
def parse (source : Str) : Option (PResult Document) :=
  match parseLoop (rustLines (source ++ ['\n', '\n'])) [] [] with
  | none => none
  | some (PResult.ok pkgs) => some (PResult.ok { packages := pkgs })
  | some (PResult.error e) => some (PResult.error e)

/-! ### Helper lemmas -/

theorem parse_package_nil :
    parse_package [] = some (PResult.error (ParseError.PackageNameNotFound [])) := by
  decide

theorem parse_package_of_empty_name {src : Str}
    (h : parse_field FieldName.Package src = some []) :
    parse_package src = some (PResult.error (ParseError.PackageNameNotFound src)) := by
  simp [parse_package, h]

theorem parse_package_error_name {src : Str} {e : ParseError}
    (h : parse_package src = some (PResult.error e)) :
    parse_field FieldName.Package src = some [] ∧ e = ParseError.PackageNameNotFound src := by
  unfold parse_package at h
  cases hf : parse_field FieldName.Package src with
  | none => simp only [hf] at h; exact Option.noConfusion h
  | some name =>
    simp only [hf] at h
    by_cases hn : name = []
    · subst hn
      simp at h
      simp [h]
    · rw [if_neg hn] at h
      cases hd : parse_field FieldName.Description src with
      | none => simp only [hd] at h; exact Option.noConfusion h
      | some d =>
        simp only [hd] at h
        cases hp : parse_field FieldName.Depends src with
        | none => simp only [hp] at h; exact Option.noConfusion h
        | some dep =>
          simp only [hp] at h
          cases hl : parse_libraries dep with
          | none => simp only [hl] at h; exact Option.noConfusion h
          | some libs => simp only [hl] at h; simp at h

theorem parseLoop_error_payload :
    ∀ (ls : List Str) (buf : Str) (pkgs : List Package) (s : Str),
      parseLoop ls buf pkgs = some (PResult.error (ParseError.PackageNameNotFound s)) →
      parse_field FieldName.Package s = some [] := by
  intro ls
  induction ls with
  | nil => intro buf pkgs s h; simp [parseLoop] at h
  | cons l rest ih =>
    intro buf pkgs s h
    cases l with
    | nil =>
      simp only [parseLoop] at h
      cases hp : parse_package buf with
      | none => rw [hp] at h; simp at h
      | some r =>
        rw [hp] at h
        cases r with
        | ok p => exact ih [] (pkgs ++ [p]) s h
        | error e =>
          simp only [Option.some.injEq, PResult.error.injEq] at h
          obtain ⟨h1, h2⟩ := parse_package_error_name hp
          rw [h] at h2
          injection h2 with hsb
          rw [hsb]
          exact h1
    | cons c cs =>
      simp only [parseLoop] at h
      exact ih _ pkgs s h

theorem parseLoop_flush_empty {buf : Str}
    (h : parse_field FieldName.Package buf = some []) (rest : List Str) (pkgs : List Package) :
    parseLoop ([] :: rest) buf pkgs =
      some (PResult.error (ParseError.PackageNameNotFound buf)) := by
  simp [parseLoop, parse_package_of_empty_name h]

theorem rustLinesGo_newline_append (a : Str) :
    ∀ (t acc : Str), rustLinesGo (a ++ '\n' :: t) acc =
      rustLinesGo (a ++ ['\n']) acc ++ rustLinesGo t [] := by
  induction a with
  | nil => intro t acc; simp [rustLinesGo]
  | cons c a ih =>
    intro t acc
    simp only [List.cons_append, rustLinesGo, List.append_eq]
    by_cases hc : c = '\n'
    · rw [if_pos hc, if_pos hc, ih t []]
      simp
    · rw [if_neg hc, if_neg hc, ih t (c :: acc)]

theorem parseLoop_two_blanks_no_ok (B : List Str) :
    ∀ (buf : Str) (pkgs r : List Package),
      parseLoop (B ++ [[], []]) buf pkgs ≠ some (PResult.ok r) := by
  induction B with
  | nil =>
    intro buf pkgs r h
    simp only [List.nil_append, parseLoop] at h
    cases hp : parse_package buf with
    | none => rw [hp] at h; exact Option.noConfusion h
    | some pr =>
      rw [hp] at h
      cases pr with
      | error e => simp at h
      | ok p =>
        simp only [parseLoop, parse_package_nil] at h
        simp at h
  | cons l rest ih =>
    intro buf pkgs r h
    cases l with
    | nil =>
      simp only [List.cons_append, parseLoop] at h
      cases hp : parse_package buf with
      | none => rw [hp] at h; exact Option.noConfusion h
      | some pr =>
        rw [hp] at h
        cases pr with
        | error e => simp at h
        | ok p => exact ih [] (pkgs ++ [p]) r h
    | cons c cs =>
      simp only [List.cons_append, parseLoop] at h
      exact ih _ pkgs r h

theorem parseFieldLoop_isSome (pat patSp : Str) :
    ∀ ls : List Str, (∀ l ∈ ls, l ≠ []) →
      ∀ buf : Str, (parseFieldLoop pat patSp ls buf).isSome = true := by
  intro ls
  induction ls with
  | nil => intro _ buf; simp [parseFieldLoop]
  | cons l rest ih =>
    intro h buf
    cases l with
    | nil => exact absurd rfl (h [] (List.mem_cons_self _ _))
    | cons c cs =>
      have hrest : ∀ l ∈ rest, l ≠ [] := fun l hl => h l (List.mem_cons_of_mem _ hl)
      simp only [parseFieldLoop]
      split
      · exact ih hrest _
      · split
        · exact ih hrest _
        · split
          · exact ih hrest _
          · simp

theorem splitOnStrFuel_ne_nil (sep : Str) :
    ∀ (fuel : Nat) (s acc : Str), splitOnStrFuel sep fuel s acc ≠ [] := by
  intro fuel
  induction fuel with
  | zero => intro s acc; cases s <;> simp [splitOnStrFuel]
  | succ n ih =>
    intro s acc
    cases s with
    | nil => simp [splitOnStrFuel]
    | cons c rest =>
      simp only [splitOnStrFuel]
      split
      · simp
      · exact ih _ _

theorem splitOnStr_ne_nil (sep s : Str) : splitOnStr sep s ≠ [] :=
  splitOnStrFuel_ne_nil sep s.length s []

theorem mkLibrary_eq (c : Str) :
    mkLibrary c = some { name := (splitOnStr strPipeSep c).headI,
                         alternates := (splitOnStr strPipeSep c).tail } := by
  unfold mkLibrary
  cases h : splitOnStr strPipeSep c with
  | nil => exact absurd h (splitOnStr_ne_nil _ _)
  | cons n as => simp [h]

theorem collectLibraries_eq (l : List Str) :
    collectLibraries l = some (l.map fun c =>
      { name := (splitOnStr strPipeSep c).headI,
        alternates := (splitOnStr strPipeSep c).tail }) := by
  induction l with
  | nil => rfl
  | cons c t ih => simp [collectLibraries, mkLibrary_eq, ih]

/-! ### Claim theorems -/

/-- C1 (amended): an empty line seen while the document-assembly accumulator is
empty is NOT a no-op: the empty accumulator is flushed into `parse_package`,
which fails, so the whole parse aborts at once with
`PackageNameNotFound("")`, whatever input remains. -/
theorem blankLine_emptyAccumulator_fails (rest : List Str) (pkgs : List Package) :
    parseLoop ([] :: rest) [] pkgs =
      some (PResult.error (ParseError.PackageNameNotFound [])) := by
  simp [parseLoop, parse_package_nil]

/-- C1 (counterexample): on an input with consecutive blank lines between two
valid stanzas, `parse` raises an error instead of performing a no-op. -/
theorem consecutiveBlankLines_error :
    parse (strOf "Package: foo\n\n\nPackage: bar") =
      some (PResult.error (ParseError.PackageNameNotFound [])) := by decide

/-- C2: parsing the two-stanza input `"Package: foo\nDescription: bar"` /
`"Package: baz\nDepends: a, b | c"` (one blank line between the stanzas)
returns `Ok` of a document with exactly the two claimed packages. -/
theorem twoStanza_end_to_end :
    parse (strOf "Package: foo\nDescription: bar\n\nPackage: baz\nDepends: a, b | c") =
      some (PResult.ok { packages := [
        { name := strOf "foo", description := strOf "bar", depends := [] },
        { name := strOf "baz", description := [], depends := [
            { name := strOf "a", alternates := [] },
            { name := strOf "b", alternates := [strOf "c"] } ] } ] }) := by decide

/-- C3: `parse` fails with `PackageNameNotFound` exactly when a flushed stanza
yields an empty extracted `Package` value: (1) any error produced by the line
loop carries a stanza whose extracted `Package` field is empty; (2) flushing a
stanza with an empty extracted `Package` field errors immediately with that
stanza as payload, regardless of the remaining input and without appending a
package; (3) the same payload characterisation holds at the `parse` level. -/
theorem parse_error_iff_empty_package_name :
    (∀ (ls : List Str) (buf : Str) (pkgs : List Package) (s : Str),
        parseLoop ls buf pkgs = some (PResult.error (ParseError.PackageNameNotFound s)) →
        parse_field FieldName.Package s = some []) ∧
    (∀ (buf : Str) (rest : List Str) (pkgs : List Package),
        parse_field FieldName.Package buf = some [] →
        parseLoop ([] :: rest) buf pkgs =
          some (PResult.error (ParseError.PackageNameNotFound buf))) ∧
    (∀ (source s : Str),
        parse source = some (PResult.error (ParseError.PackageNameNotFound s)) →
        parse_field FieldName.Package s = some []) := by
  refine ⟨parseLoop_error_payload, ?_, ?_⟩
  · intro buf rest pkgs h
    exact parseLoop_flush_empty h rest pkgs
  · intro source s h
    unfold parse at h
    cases hp : parseLoop (rustLines (source ++ ['\n', '\n'])) [] [] with
    | none => simp only [hp] at h; exact Option.noConfusion h
    | some r =>
      cases r with
      | ok pkgs => simp only [hp] at h; simp at h
      | error e =>
        simp only [hp] at h
        simp at h
        subst h
        exact parseLoop_error_payload _ _ _ _ hp

/-- C3 (witness): a concrete stanza without a `Package:` line makes `parse`
fail carrying that stanza, whose extracted `Package` field is empty. -/
theorem parse_error_iff_empty_package_name_witness :
    parse (strOf "Status: q") =
      some (PResult.error (ParseError.PackageNameNotFound (strOf "Status: q\n"))) ∧
    parse_field FieldName.Package (strOf "Status: q\n") = some [] :=
  ⟨by decide, parse_error_iff_empty_package_name.2.2 (strOf "Status: q")
      (strOf "Status: q\n") (by decide)⟩

/-- C4: `parse_libraries` always succeeds; the empty string gives the empty
list, every non-empty input is split on `", "` into clauses and each clause on
`" | "` into a name and its alternates, and the three-clause example of the
spec evaluates as claimed. -/
theorem parse_libraries_spec :
    (∀ s : Str, (parse_libraries s).isSome = true) ∧
    parse_libraries [] = some [] ∧
    (∀ s : Str, s ≠ [] → parse_libraries s =
        some ((splitOnStr strCommaSep s).map fun c =>
          { name := (splitOnStr strPipeSep c).headI,
            alternates := (splitOnStr strPipeSep c).tail })) ∧
    parse_libraries (strOf "libc6 (>= 2.14), zlib1g (>= 1:1.1.4), debconf (>= 0.5) | debconf-2.0") =
      some [ { name := strOf "libc6 (>= 2.14)", alternates := [] },
             { name := strOf "zlib1g (>= 1:1.1.4)", alternates := [] },
             { name := strOf "debconf (>= 0.5)", alternates := [strOf "debconf-2.0"] } ] := by
  have hgen : ∀ s : Str, s ≠ [] → parse_libraries s =
      some ((splitOnStr strCommaSep s).map fun c =>
        { name := (splitOnStr strPipeSep c).headI,
          alternates := (splitOnStr strPipeSep c).tail }) := by
    intro s hs
    simp [parse_libraries, hs, collectLibraries_eq]
  refine ⟨?_, by decide, hgen, by decide⟩
  intro s
  by_cases hs : s = []
  · subst hs; decide
  · rw [hgen s hs]; rfl

/-- C4 (witness): the split characterisation applied to the one-clause input
`"a"`. -/
theorem parse_libraries_spec_witness :
    (strOf "a" ≠ ([] : Str)) ∧
    parse_libraries (strOf "a") = some [{ name := strOf "a", alternates := [] }] := by
  refine ⟨by decide, ?_⟩
  rw [parse_libraries_spec.2.2.1 (strOf "a") (by decide)]
  decide

/-- C5: the recognised field line `Description: A` followed by the space-indented
continuation lines `  B` and `  C` extracts to exactly `"A\nB\nC"` (content
lines joined by newlines); a field with no continuation line yields its
one-line value, with the assembled value trimmed of surrounding whitespace. -/
theorem field_folding_round_trip :
    parse_field FieldName.Description (strOf "Description: A\n  B\n  C") = some (strOf "A\nB\nC") ∧
    parse_field FieldName.Description (strOf "Description: A") = some (strOf "A") ∧
    parse_field FieldName.Description (strOf "Description:   A  ") = some (strOf "A") := by
  decide

/-- C6 (amended): once a capture is active (`buf` non-empty), a subsequent line
that neither starts with a space nor starts with the field pattern terminates
extraction entirely — the remaining lines contribute nothing; but a non-space
line that DOES start with the field pattern is captured again (repeated field
lines accumulate) instead of terminating. -/
theorem capture_break_requires_no_field_match :
    (∀ (pat patSp : Str) (c : Char) (cs : Str) (rest : List Str) (buf : Str),
        buf ≠ [] → c ≠ ' ' → strStartsWith (c :: cs) pat = false →
        parseFieldLoop pat patSp ((c :: cs) :: rest) buf = some buf) ∧
    (∀ (pat patSp : Str) (c : Char) (cs : Str) (rest : List Str) (buf : Str),
        strStartsWith (c :: cs) pat = true →
        parseFieldLoop pat patSp ((c :: cs) :: rest) buf =
          parseFieldLoop pat patSp rest (buf ++ replaceAll patSp [] (c :: cs) ++ ['\n'])) := by
  constructor
  · intro pat patSp c cs rest buf hbuf hc hpat
    simp [parseFieldLoop, hpat, hbuf, hc]
  · intro pat patSp c cs rest buf hpat
    simp [parseFieldLoop, hpat]

/-- C6 (counterexample): in the stanza `"Package: a\nPackage: b"` the second
`Package:` line does not start with a space yet it does NOT terminate the
capture — it contributes `"b"`, so the extracted value is `"a\nb"`, not `"a"`. -/
theorem repeated_field_line_appends :
    parse_field FieldName.Package (strOf "Package: a\nPackage: b") = some (strOf "a\nb") ∧
    some (strOf "a\nb") ≠ some (strOf "a") := by decide

/-- C6 (witness): the break rule applied at a concrete non-space,
non-field-pattern line with a non-empty buffer. -/
theorem capture_break_requires_no_field_match_witness :
    (strOf "a\n" ≠ ([] : Str)) ∧
    parseFieldLoop (strOf "Package:") (strOf "Package: ") [('Q' :: strOf "x")] (strOf "a\n") =
      some (strOf "a\n") :=
  ⟨by decide, capture_break_requires_no_field_match.1 (strOf "Package:") (strOf "Package: ")
      'Q' (strOf "x") [] (strOf "a\n") (by decide) (by decide) (by decide)⟩

/-- C7 (amended): capture starts exactly when the line has `<FieldName>:`
(colon, NO trailing space required) as a prefix, and the first content line is
the line with EVERY occurrence of `<FieldName>: ` removed (not only a prefix
occurrence); a line not starting with `<FieldName>:` starts no capture. -/
theorem capture_start_and_content :
    ∀ (f : FieldName) (c : Char) (cs : Str) (rest : List Str),
      (strStartsWith (c :: cs) (fieldPat f) = true →
        parseFieldLoop (fieldPat f) (fieldPatSp f) ((c :: cs) :: rest) [] =
          parseFieldLoop (fieldPat f) (fieldPatSp f) rest
            (replaceAll (fieldPatSp f) [] (c :: cs) ++ ['\n'])) ∧
      (strStartsWith (c :: cs) (fieldPat f) = false →
        parseFieldLoop (fieldPat f) (fieldPatSp f) ((c :: cs) :: rest) [] =
          parseFieldLoop (fieldPat f) (fieldPatSp f) rest []) := by
  intro f c cs rest
  constructor
  · intro hpat
    simp [parseFieldLoop, hpat]
  · intro hpat
    simp [parseFieldLoop, hpat]

/-- C7 (counterexample): `"Package:x"` (no space after the colon) DOES start a
capture and extracts to `"Package:x"` rather than to the empty value; and in
`"Package: a Package: b"` the inner occurrence of `"Package: "` is removed as
well, extracting `"a b"` instead of `"a Package: b"`. -/
theorem colon_no_space_starts_capture :
    parse_field FieldName.Package (strOf "Package:x") = some (strOf "Package:x") ∧
    (strOf "Package:x") ≠ ([] : Str) ∧
    parse_field FieldName.Package (strOf "Package: a Package: b") = some (strOf "a b") ∧
    some (strOf "a b") ≠ some (strOf "a Package: b") := by decide

/-- C7 (witness): the capture-start rule applied to the concrete line
`"Package:x"`. -/
theorem capture_start_and_content_witness :
    strStartsWith ('P' :: strOf "ackage:x") (fieldPat FieldName.Package) = true ∧
    parseFieldLoop (fieldPat FieldName.Package) (fieldPatSp FieldName.Package)
        [('P' :: strOf "ackage:x")] [] =
      parseFieldLoop (fieldPat FieldName.Package) (fieldPatSp FieldName.Package) []
        (replaceAll (fieldPatSp FieldName.Package) [] ('P' :: strOf "ackage:x") ++ ['\n']) :=
  ⟨by decide, (capture_start_and_content FieldName.Package 'P' (strOf "ackage:x") []).1 (by decide)⟩

/-- C8: during an active capture, an indented continuation line that trims to a
single `.` is appended verbatim as the content line `"."`; concretely,
`"Description: A\n  .\n  B"` extracts to `"A\n.\nB"`. -/
theorem dot_continuation_preserved :
    (∀ (pat patSp : Str) (cs : Str) (rest : List Str) (buf : Str),
        buf ≠ [] → strStartsWith (' ' :: cs) pat = false → strTrim (' ' :: cs) = ['.'] →
        parseFieldLoop pat patSp ((' ' :: cs) :: rest) buf =
          parseFieldLoop pat patSp rest (buf ++ ['.', '\n'])) ∧
    parse_field FieldName.Description (strOf "Description: A\n  .\n  B") =
      some (strOf "A\n.\nB") := by
  constructor
  · intro pat patSp cs rest buf hbuf hpat htrim
    simp [parseFieldLoop, hpat, hbuf, htrim]
  · decide

/-- C8 (witness): the dot-preservation rule applied to the concrete
continuation line `"  ."` with buffer `"A\n"`. -/
theorem dot_continuation_preserved_witness :
    (strOf "A\n" ≠ ([] : Str)) ∧
    parseFieldLoop (fieldPat FieldName.Description) (fieldPatSp FieldName.Description)
        [(' ' :: strOf " .")] (strOf "A\n") =
      parseFieldLoop (fieldPat FieldName.Description) (fieldPatSp FieldName.Description) []
        (strOf "A\n" ++ ['.', '\n']) :=
  ⟨by decide, dot_continuation_preserved.1 (fieldPat FieldName.Description)
      (fieldPatSp FieldName.Description) (strOf " .") [] (strOf "A\n")
      (by decide) (by decide) (by decide)⟩

/-- C9 (amended): on a stanza all of whose lines are non-empty — which is the
only kind the document loop ever hands over — field extraction succeeds; a
stanza containing an empty line is NOT handled gracefully: the extractor
panics (`line.chars().next().unwrap()` on `None`) instead of treating the
line as a capture terminator. -/
theorem field_extraction_total_on_nonempty_lines :
    ∀ (f : FieldName) (s : Str), (∀ l ∈ rustLines s, l ≠ []) →
      (parse_field f s).isSome = true := by
  intro f s h
  unfold parse_field
  have hs := parseFieldLoop_isSome (fieldPat f) (fieldPatSp f) (rustLines s) h []
  cases hp : parseFieldLoop (fieldPat f) (fieldPatSp f) (rustLines s) [] with
  | none => rw [hp] at hs; exact absurd hs (by simp)
  | some v => simp [hp]

/-- C9 (counterexample): a stanza containing an empty line makes the extractor
fail (panic, modelled as `none`) instead of terminating the capture. -/
theorem empty_line_panics_extractor :
    parse_field FieldName.Package (strOf "Package: a\n\nX") = none := by decide

/-- C9 (witness): extraction succeeds on a concrete stanza with only non-empty
lines. -/
theorem field_extraction_total_witness :
    (∀ l ∈ rustLines (strOf "Package: w"), l ≠ []) ∧
    (parse_field FieldName.Package (strOf "Package: w")).isSome = true :=
  ⟨by decide, field_extraction_total_on_nonempty_lines FieldName.Package
      (strOf "Package: w") (by decide)⟩

/-- C10 (amended): on every source that is empty or ends with a newline,
`parse` never succeeds (the synthetic trailing blank lines force a flush of an
empty accumulator, or an earlier failure, or a panic); `parse ""` and a
well-formed stanza followed by a trailing newline both yield
`PackageNameNotFound("")`. -/
theorem parse_trailing_newline_never_ok :
    (∀ source : Str, (source = [] ∨ ∃ a : Str, source = a ++ ['\n']) →
        ∀ d : Document, parse source ≠ some (PResult.ok d)) ∧
    parse [] = some (PResult.error (ParseError.PackageNameNotFound [])) ∧
    parse (strOf "Package: a\n") = some (PResult.error (ParseError.PackageNameNotFound [])) := by
  refine ⟨?_, by decide, by decide⟩
  intro source hsrc d hok
  have hB : ∃ B : List Str, rustLines (source ++ ['\n', '\n']) = B ++ [[], []] := by
    rcases hsrc with rfl | ⟨a, rfl⟩
    · exact ⟨[], by decide⟩
    · refine ⟨rustLines (a ++ ['\n']), ?_⟩
      have he : (a ++ ['\n']) ++ ['\n', '\n'] = a ++ '\n' :: ['\n', '\n'] := by simp
      unfold rustLines
      rw [he, rustLinesGo_newline_append a ['\n', '\n'] []]
      rfl
  obtain ⟨B, hB⟩ := hB
  unfold parse at hok
  rw [hB] at hok
  cases hp : parseLoop (B ++ [[], []]) [] [] with
  | none => simp [hp] at hok
  | some r =>
    cases r with
    | ok pkgs => exact parseLoop_two_blanks_no_ok B [] [] pkgs hp
    | error e => simp [hp] at hok

/-- C10 (witness): on the concrete newline-terminated source `"X\n"`, `parse`
does not return an `Ok` document. -/
theorem parse_trailing_newline_never_ok_witness :
    ((strOf "X\n") = ([] : Str) ∨ ∃ a : Str, strOf "X\n" = a ++ ['\n']) ∧
    parse (strOf "X\n") ≠ some (PResult.ok { packages := [] }) :=
  ⟨Or.inr ⟨['X'], by decide⟩,
   parse_trailing_newline_never_ok.1 (strOf "X\n") (Or.inr ⟨['X'], by decide⟩) { packages := [] }⟩

/-- C10 (counterexample): the newline-terminated source `"Status: x\n"` makes
`parse` fail with `PackageNameNotFound("Status: x\n")`, not with
`PackageNameNotFound("")` as the claim states. -/
theorem trailing_newline_error_payload :
    parse (strOf "Status: x\n") =
      some (PResult.error (ParseError.PackageNameNotFound (strOf "Status: x\n"))) ∧
    parse (strOf "Status: x\n") ≠
      some (PResult.error (ParseError.PackageNameNotFound [])) := by decide
